import Mathlib

/-!
Verification development for the single-file B-tree key-value store in
`src/db.c`.  The pure core of the engine (row codec, leaf-node layout,
binary search, ordered insert, leaf split, pager page fetch, statement
preparation and execution) is embedded shallowly as Lean functions over
explicit state, and the behavioural properties claimed for it are proved
or refuted below.

Conventions of the embedding:
* machine integers (`uint32_t`) are `Nat`, with `% 2 ^ 32` written out at
  the points where the C code re-reads a 32-bit field from raw bytes;
* page buffers and cell arrays are total functions `Nat → _`, matching the
  C idiom of unchecked pointer arithmetic into a page; the `num_cells`
  header says which prefix is meaningful;
* byte strings are `List Nat` (each entry one byte);
* fallible operations (`get_page`, which can `exit` the process) return
  `Option`.
-/

/-! ## Layout constants, from the `#define` block of db.c -/

/-- `#define TABLE_MAX_PAGES 100` -/
def TABLE_MAX_PAGES : Nat := 100

/-- `#define COLUMN_USERNAME_SIZE 32` -/
def COLUMN_USERNAME_SIZE : Nat := 32

/-- `#define COLUMN_EMAIL_SIZE 255` -/
def COLUMN_EMAIL_SIZE : Nat := 255

/-- `#define PAGE_SIZE 4096` -/
def PAGE_SIZE : Nat := 4096

/-- `sizeof(((Row*)0)->id)` = `sizeof(uint32_t)` = 4 -/
def ID_SIZE : Nat := 4

/-- `sizeof(((Row*)0)->username)` = `char[COLUMN_USERNAME_SIZE + 1]` = 33 -/
def USERNAME_SIZE : Nat := COLUMN_USERNAME_SIZE + 1

/-- `sizeof(((Row*)0)->email)` = `char[COLUMN_EMAIL_SIZE + 1]` = 256 -/
def EMAIL_SIZE : Nat := COLUMN_EMAIL_SIZE + 1

/-- `#define ROW_SIZE (ID_SIZE + USERNAME_SIZE + EMAIL_SIZE)` = 293 -/
def ROW_SIZE : Nat := ID_SIZE + USERNAME_SIZE + EMAIL_SIZE

/-- `COMMON_NODE_HEADER_SIZE` = 1 + 1 + 4 = 6 -/
def COMMON_NODE_HEADER_SIZE : Nat := 1 + 1 + 4

/-- `LEAF_NODE_HEADER_SIZE` = common header + 4-byte `num_cells` = 10 -/
def LEAF_NODE_HEADER_SIZE : Nat := COMMON_NODE_HEADER_SIZE + 4

/-- `LEAF_NODE_KEY_SIZE` = `sizeof(uint32_t)` = 4 -/
def LEAF_NODE_KEY_SIZE : Nat := 4

/-- `LEAF_NODE_VALUE_SIZE` = `ROW_SIZE` = 293 -/
def LEAF_NODE_VALUE_SIZE : Nat := ROW_SIZE

/-- `LEAF_NODE_CELL_SIZE` = key + value = 297 -/
def LEAF_NODE_CELL_SIZE : Nat := LEAF_NODE_KEY_SIZE + LEAF_NODE_VALUE_SIZE

/-- `LEAF_NODE_SPACE_FOR_CELLS` = `PAGE_SIZE - LEAF_NODE_HEADER_SIZE` = 4086 -/
def LEAF_NODE_SPACE_FOR_CELLS : Nat := PAGE_SIZE - LEAF_NODE_HEADER_SIZE

/-- `LEAF_NODE_MAX_CELLS` = 4086 / 297 (C integer division) = 13 -/
def LEAF_NODE_MAX_CELLS : Nat := LEAF_NODE_SPACE_FOR_CELLS / LEAF_NODE_CELL_SIZE

/-- `const uint32_t LEAF_NODE_RIGHT_SPLIT_COUNT = LEAF_NODE_MAX_CELLS / 2;` -/
def LEAF_NODE_RIGHT_SPLIT_COUNT : Nat := LEAF_NODE_MAX_CELLS / 2

/-- `const uint32_t LEAF_NODE_LEFT_SPLIT_COUNT =
      LEAF_NODE_MAX_CELLS - (LEAF_NODE_MAX_CELLS / 2);` -/
def LEAF_NODE_LEFT_SPLIT_COUNT : Nat :=
  LEAF_NODE_MAX_CELLS - (LEAF_NODE_MAX_CELLS / 2)

/-! ## Data model -/

/-- The C `Row` struct: a `uint32_t` id plus two C strings.  The string
fields model the meaningful content of the `char[33]` / `char[256]`
arrays: the bytes before the terminating 0 (each entry is one byte). -/
structure Row where
  id : Nat
  username : List Nat
  email : List Nat
deriving DecidableEq, Repr

/-- One leaf-node cell: a 4-byte key followed by a `ROW_SIZE`-byte value
(`LEAF_NODE_KEY_SIZE` + `LEAF_NODE_VALUE_SIZE` bytes in the page). -/
structure Cell where
  key : Nat
  value : List Nat
deriving DecidableEq, Repr

/-- A leaf node: the `num_cells` header plus the cell array of the page
body.  `cells` is total, mirroring unchecked pointer arithmetic; only
indices below `numCells` are meaningful. -/
structure LeafNode where
  numCells : Nat
  cells : Nat → Cell

/-- The `ExecuteResult` enum of db.c. -/
inductive ExecuteResult where
  | EXECUTE_SUCCESS
  | EXECUTE_TABLE_FULL
  | EXECUTE_DUPLICATE_KEY
deriving DecidableEq, Repr

/-- The `PrepareResult` enum of db.c (the syntax-error constructor is
abbreviated `PREPARE_SYNTAX_ERR`). -/
inductive PrepareResult where
  | PREPARE_SUCCESS
  | PREPARE_NEGATIVE_ID
  | PREPARE_STRING_TOO_LONG
  | PREPARE_SYNTAX_ERR
  | PREPARE_UNRECOGNIZED_STATEMENT
deriving DecidableEq, Repr

/-! ## Row codec (`serialize_row` / `deserialize_row`) -/

/-- The four little-endian bytes of a `uint32_t`, as written by
`memcpy(destination + ID_OFFSET, &(source->id), ID_SIZE)` on the
little-endian target. -/
def u32_le_bytes (v : Nat) : List Nat :=
  [v % 256, v / 256 % 256, v / 65536 % 256, v / 16777216 % 256]

/-- Read a `uint32_t` back from the first four bytes of a byte list
(little endian), as `memcpy(&(destination->id), source + ID_OFFSET,
ID_SIZE)` does.  The source buffer always holds at least `ID_SIZE`
bytes; the catch-all arm is unreachable. -/
def u32_from_le_bytes : List Nat → Nat
  | b0 :: b1 :: b2 :: b3 :: _ => b0 + 256 * b1 + 65536 * b2 + 16777216 * b3
  | _ => 0

/-- `strncpy(dst, src, n)`: copy the string bytes (at most `n`) and pad
with zero bytes up to exactly `n` bytes. -/
def strncpy_bytes (s : List Nat) (n : Nat) : List Nat :=
  s.take n ++ List.replicate (n - s.length) 0

/-- `serialize_row`: id as 4 little-endian bytes at offset 0, then the
zero-padded 33-byte username field and the zero-padded 256-byte email
field — 293 bytes in total. -/
def serialize_row (source : Row) : List Nat :=
  u32_le_bytes source.id ++ strncpy_bytes source.username USERNAME_SIZE ++
    strncpy_bytes source.email EMAIL_SIZE

/-- `deserialize_row`: read the id from offset 0 and the two string
fields from offsets 4 and 37.  The C code memcpy's the full 33/256-byte
arrays; the string content of such an array is its prefix up to the
terminating 0 byte, modeled by `takeWhile`. -/
def deserialize_row (source : List Nat) : Row :=
  { id := u32_from_le_bytes (source.take ID_SIZE)
    username := (((source.drop ID_SIZE).take USERNAME_SIZE).takeWhile
      fun b => b != 0)
    email := ((((source.drop ID_SIZE).drop USERNAME_SIZE).take EMAIL_SIZE).takeWhile
      fun b => b != 0) }

/-! ## Leaf-node initialization and key listing -/

/-- `initialize_leaf_node`: sets `num_cells = 0` (and the node type and
root flag, which the leaf-level model does not track).  The cell bytes of
the freshly obtained page buffer are NOT cleared; they stay whatever the
allocator left there (`buf`). -/
def initialize_leaf_node (buf : Nat → Cell) : LeafNode :=
  { numCells := 0, cells := buf }

/-- The meaningful keys of a leaf, in cell order: `key(0), …,
key(num_cells − 1)`. -/
def leaf_keys (node : LeafNode) : List Nat :=
  (List.range node.numCells).map fun i => (node.cells i).key

/-- Strict ascending key order inside a leaf (spec invariant P1):
`key(i) < key(i+1)` for every `0 ≤ i < num_cells − 1`. -/
@[reducible] def leaf_sorted (node : LeafNode) : Prop :=
  ∀ i, i < node.numCells - 1 → (node.cells i).key < (node.cells (i + 1)).key

/-! ## Leaf lookup (`leaf_node_find`) -/

/-- The binary-search loop of `leaf_node_find`: search range
`[mn, opm)`, midpoint by truncating division, early return on an exact
key match, otherwise narrow and finish at `mn`.  (The C loop condition is
`one_past_max_index != min_index`; starting from `0 ≤ num_cells` the
range bounds always satisfy `mn ≤ opm`, so it coincides with
`mn < opm`.)  The C `while` loop terminates because the range width
`opm − mn` strictly decreases; the embedding carries that measure as an
explicit structural fuel argument, which never runs out when the loop
is entered with fuel at least `opm − mn` (as `leaf_node_find_loop`
below does). -/
def leaf_node_find_loop_go (cells : Nat → Cell) (key : Nat) :
    Nat → Nat → Nat → Nat
  | 0, mn, _ => mn
  | fuel + 1, mn, opm =>
    if mn < opm then
      if key = (cells ((mn + opm) / 2)).key then (mn + opm) / 2
      else if key < (cells ((mn + opm) / 2)).key then
        leaf_node_find_loop_go cells key fuel mn ((mn + opm) / 2)
      else
        leaf_node_find_loop_go cells key fuel ((mn + opm) / 2 + 1) opm
    else mn

/-- The binary-search loop entered on the range `[mn, opm)`. -/
def leaf_node_find_loop (cells : Nat → Cell) (key mn opm : Nat) : Nat :=
  leaf_node_find_loop_go cells key (opm - mn) mn opm

/-- `leaf_node_find(table, page_num, key)`, restricted to the cursor's
`cell_num` field (the `table` and `page_num` fields of the returned
cursor just name the leaf being searched, here the node itself). -/
def leaf_node_find (node : LeafNode) (key : Nat) : Nat :=
  leaf_node_find_loop node.cells key 0 node.numCells

/-! ## Ordered insert (`leaf_node_insert`) -/

/-- The shift loop of `leaf_node_insert`:
`for (i = num_cells; i > cell_num; i--) cell(i) := cell(i-1)`,
making room at `cell_num`. -/
def shift_cells_right : (Nat → Cell) → Nat → Nat → Nat → Cell
  | cells, _, 0 => cells
  | cells, cell_num, i + 1 =>
    if cell_num < i + 1 then
      shift_cells_right (Function.update cells (i + 1) (cells i)) cell_num i
    else cells

/-- `leaf_node_insert(cursor, key, value)` in the non-full case
(`num_cells < LEAF_NODE_MAX_CELLS`): shift the cells from `cell_num`
rightwards (the C code runs the loop only under
`cursor->cell_num < num_cells`; otherwise there is nothing to shift),
bump `num_cells`, and write the key and the serialized row into cell
`cell_num`.  When the leaf is full the C function instead delegates to
`leaf_node_split_and_insert` (modeled separately below); that case is
unreachable from `execute_statement`, which returns
`EXECUTE_TABLE_FULL` before calling `leaf_node_insert` on a full
leaf. -/
def leaf_node_insert (node : LeafNode) (cell_num key : Nat) (value : Row) :
    LeafNode :=
  let shifted :=
    if cell_num < node.numCells then
      shift_cells_right node.cells cell_num node.numCells
    else node.cells
  { numCells := node.numCells + 1
    cells := Function.update shifted cell_num ⟨key, serialize_row value⟩ }

/-! ## Leaf split (`leaf_node_split_and_insert`) -/

/-- One iteration (index `i`) of the split loop of
`leaf_node_split_and_insert`.  State is the pair
(old node cells, new node cells).

The destination node is the new node iff `i ≥ LEAF_NODE_LEFT_SPLIT_COUNT`
and the destination cell index is `i % LEAF_NODE_LEFT_SPLIT_COUNT`.

When `i == cursor->cell_num` the C code executes
`serialize_row(value, destination)` where `destination` is
`leaf_node_cell(...)`, i.e. the START of the 297-byte cell, not its
value slot: the 293 row bytes land on the key field and the first 289
bytes of the value field.  So the cell's key field ends up holding the
row id's four little-endian bytes (value `id % 2^32`), the value field
holds the serialized row shifted left by the 4 key bytes, and the last 4
bytes of the value field keep whatever the destination cell held before
(`prior`).  The `key` argument of the C function is never written. -/
def split_iter (cell_num : Nat) (value : Row) (i : Nat)
    (st : (Nat → Cell) × (Nat → Cell)) : (Nat → Cell) × (Nat → Cell) :=
  let idx := i % LEAF_NODE_LEFT_SPLIT_COUNT
  let prior : Cell :=
    if LEAF_NODE_LEFT_SPLIT_COUNT ≤ i then st.2 idx else st.1 idx
  let written : Cell :=
    if i = cell_num then
      ⟨value.id % 2 ^ 32,
        (serialize_row value).drop LEAF_NODE_KEY_SIZE ++
          prior.value.drop (LEAF_NODE_VALUE_SIZE - LEAF_NODE_KEY_SIZE)⟩
    else if cell_num < i then st.1 (i - 1)
    else st.1 i
  if LEAF_NODE_LEFT_SPLIT_COUNT ≤ i then
    (st.1, Function.update st.2 idx written)
  else
    (Function.update st.1 idx written, st.2)

/-- The split loop `for (int32_t i = LEAF_NODE_MAX_CELLS; i >= 0; i--)`,
run here from `i` down to `0`. -/
def split_loop (cell_num : Nat) (value : Row) :
    Nat → (Nat → Cell) × (Nat → Cell) → (Nat → Cell) × (Nat → Cell)
  | 0, st => split_iter cell_num value 0 st
  | i + 1, st => split_loop cell_num value i (split_iter cell_num value (i + 1) st)

/-- `leaf_node_split_and_insert(cursor, key, value)`, acting on the old
(full) leaf and a freshly allocated page buffer `new_node_buf`
(`get_unused_page_num` + `get_page` return a malloc'd buffer whose cell
area is NOT cleared; `initialize_leaf_node` only zeroes the header).
After the loop, `num_cells` of the old node is set to
`LEAF_NODE_LEFT_SPLIT_COUNT` and of the new node to
`LEAF_NODE_RIGHT_SPLIT_COUNT`.  The subsequent `create_new_root` call
(the old node is the root) only copies the old page to a further fresh
page and flips type/root flags — it is stubbed in the source and leaves
both cell arrays and both `num_cells` headers as returned here.  The
`key` argument is unused, exactly as in the C code (see `split_iter`). -/
def leaf_node_split_and_insert (old_node : LeafNode) (new_node_buf : Nat → Cell)
    (cell_num key : Nat) (value : Row) : LeafNode × LeafNode :=
  let new_node := initialize_leaf_node new_node_buf
  let st := split_loop cell_num value LEAF_NODE_MAX_CELLS
    (old_node.cells, new_node.cells)
  (⟨LEAF_NODE_LEFT_SPLIT_COUNT, st.1⟩, ⟨LEAF_NODE_RIGHT_SPLIT_COUNT, st.2⟩)

/-! ## Statement execution (`execute_statement`, STATEMENT_INSERT arm) -/

/-- The `STATEMENT_INSERT` case of `execute_statement`, with the root
leaf (page 0, materialized by `db_open`) as the table state:
read `num_cells`; if the leaf is full return `EXECUTE_TABLE_FULL`;
otherwise locate the key with `leaf_node_find`, reject an equal key at
the found cell with `EXECUTE_DUPLICATE_KEY`, and otherwise insert. -/
def execute_insert (table : LeafNode) (row_to_insert : Row) :
    ExecuteResult × LeafNode :=
  if LEAF_NODE_MAX_CELLS ≤ table.numCells then
    (.EXECUTE_TABLE_FULL, table)
  else
    let key_to_insert := row_to_insert.id
    let cell_num := leaf_node_find table key_to_insert
    if cell_num < table.numCells ∧ (table.cells cell_num).key = key_to_insert then
      (.EXECUTE_DUPLICATE_KEY, table)
    else
      (.EXECUTE_SUCCESS, leaf_node_insert table cell_num key_to_insert row_to_insert)

/-! ## Pager (`get_page`) -/

/-- Pager state: file length measured at open, running page count, and
the page cache.  A cached page is a byte buffer `Nat → Nat` (meaningful
on `[0, PAGE_SIZE)`). -/
structure Pager where
  fileLength : Nat
  numPages : Nat
  pages : Nat → Option (Nat → Nat)

/-- The on-disk page count computed inside `get_page`:
`file_length / PAGE_SIZE`, plus one if a partial page trails. -/
def disk_pages (fileLength : Nat) : Nat :=
  fileLength / PAGE_SIZE + (if fileLength % PAGE_SIZE ≠ 0 then 1 else 0)

/-- `get_page(pager, page_num)`.  `none` models the fatal
`exit(EXIT_FAILURE)` on an out-of-bounds page number.  On a cache miss
the C code `malloc`s a buffer — its initial contents are whatever the
allocator returns, modeled by the `mallocBytes` parameter (NOT zeroed) —
then, if `page_num` is inside the on-disk page count, `read`s up to
`PAGE_SIZE` bytes from offset `page_num * PAGE_SIZE` over the start of
the buffer (a short read near end-of-file leaves the tail of the buffer
untouched), installs the buffer in the cache, and bumps `num_pages` when
`page_num >= num_pages`.  `file` gives the byte of the backing file at
each offset. -/
def get_page (file : Nat → Nat) (mallocBytes : Nat → Nat) (pager : Pager)
    (page_num : Nat) : Option ((Nat → Nat) × Pager) :=
  if TABLE_MAX_PAGES ≤ page_num then none
  else
    match pager.pages page_num with
    | some page => some (page, pager)
    | none =>
      let page : Nat → Nat :=
        if page_num < disk_pages pager.fileLength then
          fun j =>
            if j < PAGE_SIZE ∧ page_num * PAGE_SIZE + j < pager.fileLength then
              file (page_num * PAGE_SIZE + j)
            else mallocBytes j
        else mallocBytes
      some (page,
        { fileLength := pager.fileLength
          numPages :=
            if pager.numPages ≤ page_num then page_num + 1 else pager.numPages
          pages := Function.update pager.pages page_num (some page) })

/-! ## Statement preparation (`prepare_statement`, insert arm) -/

/-- The insert arm of `prepare_statement` after tokenization has
produced the three fields: `int id = atoi(id_string)` (an `Int`), the
username and email byte strings.  The id check is `if (id < 0) return
PREPARE_NEGATIVE_ID;` — zero is accepted.  Then the two length checks,
then the row is filled in (`row_to_insert.id = id` converts the
non-negative `int` to `uint32_t`). -/
def prepare_insert (id : Int) (username email : List Nat) :
    PrepareResult × Option Row :=
  if id < 0 then (.PREPARE_NEGATIVE_ID, none)
  else if COLUMN_USERNAME_SIZE < username.length then (.PREPARE_STRING_TOO_LONG, none)
  else if COLUMN_EMAIL_SIZE < email.length then (.PREPARE_STRING_TOO_LONG, none)
  else (.PREPARE_SUCCESS, some ⟨(id % (2 ^ 32 : Int)).toNat, username, email⟩)

/-! ## Concrete fixtures (used by witnesses and concrete evaluations) -/

/-- A row `(i, "u", "e")` as the REPL would build it for
`insert i u e`. -/
def test_row (i : Nat) : Row :=
  ⟨i, [117], [101]⟩

/-- The root leaf of a freshly opened empty database: `db_open` calls
`initialize_leaf_node` on the malloc'd page-0 buffer. -/
def empty_root_leaf : LeafNode :=
  initialize_leaf_node fun _ => ⟨0, List.replicate ROW_SIZE 0⟩

/-- Run a sequence of inserts of `test_row i` through
`execute_insert`, collecting the result codes and the final leaf. -/
def run_inserts (node : LeafNode) : List Nat → List ExecuteResult × LeafNode
  | [] => ([], node)
  | i :: rest =>
    let r := execute_insert node (test_row i)
    let rest_run := run_inserts r.2 rest
    (r.1 :: rest_run.1, rest_run.2)

/-- The root leaf after inserting keys 1..13 into a fresh database. -/
def db_after_13 : LeafNode :=
  (run_inserts empty_root_leaf (List.range' 1 13)).2

/-- A full root leaf holding keys 1..13 (the state after scenario 6 of
the spec has inserted 13 rows). -/
def full_root_leaf : LeafNode :=
  ⟨LEAF_NODE_MAX_CELLS, fun j => ⟨j + 1, serialize_row (test_row (j + 1))⟩⟩

/-- Contents of a freshly allocated page buffer for the split's new
node (arbitrary; the split overwrites every meaningful cell). -/
def fresh_page_buf : Nat → Cell :=
  fun _ => ⟨0, List.replicate ROW_SIZE 0⟩

/-- The two leaves produced by splitting `full_root_leaf` at the
binary-search position of the new key 14. -/
def split_result_14 : LeafNode × LeafNode :=
  leaf_node_split_and_insert full_root_leaf fresh_page_buf
    (leaf_node_find full_root_leaf 14) 14 (test_row 14)

/-- A three-cell leaf with keys 2, 4, 6. -/
def find_test_leaf : LeafNode :=
  ⟨3, fun j => if j = 0 then ⟨2, []⟩ else if j = 1 then ⟨4, []⟩ else ⟨6, []⟩⟩

/-- A two-cell leaf with keys 1, 3. -/
def insert_test_leaf : LeafNode :=
  ⟨2, fun j => if j = 0 then ⟨1, []⟩ else ⟨3, []⟩⟩

/-- A three-cell leaf with keys 1, 3, 5. -/
def dup_test_leaf : LeafNode :=
  ⟨3, fun j => if j = 0 then ⟨1, []⟩ else if j = 1 then ⟨3, []⟩ else ⟨5, []⟩⟩

/-- The pager of a freshly opened empty database file. -/
def empty_pager : Pager :=
  ⟨0, 0, fun _ => none⟩

/-! ## Helper lemmas about sorted leaves and the binary search -/

/-- The number of meaningful cells of `cells` (among the first `n`)
whose key is strictly below `k`.  For a strictly ascending leaf this is
both the index of `k` when present and the insertion position when
absent. -/
def keys_below (cells : Nat → Cell) (k n : Nat) : Nat :=
  ((Finset.range n).filter fun j => (cells j).key < k).card

theorem keys_below_le (cells : Nat → Cell) (k n : Nat) : keys_below cells k n ≤ n := by
  calc ((Finset.range n).filter fun j => (cells j).key < k).card
      ≤ (Finset.range n).card := Finset.card_filter_le _ _
    _ = n := Finset.card_range n

theorem keys_below_eq_of_key_eq (cells : Nat → Cell) (k n : Nat)
    (hmono : ∀ i j, i < j → j < n → (cells i).key < (cells j).key)
    (m : Nat) (hm : m < n) (hk : (cells m).key = k) :
    keys_below cells k n = m := by
  have hfil : ((Finset.range n).filter fun j => (cells j).key < k) = Finset.range m := by
    ext j
    simp only [Finset.mem_filter, Finset.mem_range]
    constructor
    · rintro ⟨hj, hjk⟩
      by_contra hge
      have hmj : m ≤ j := by omega
      rcases Nat.eq_or_lt_of_le hmj with h | h
      · subst h
        omega
      · have := hmono m j h hj
        omega
    · intro hj
      exact ⟨by omega, by have := hmono j m hj hm; omega⟩
  rw [keys_below, hfil, Finset.card_range]

theorem keys_below_le_of_lt (cells : Nat → Cell) (k n : Nat)
    (hmono : ∀ i j, i < j → j < n → (cells i).key < (cells j).key)
    (m : Nat) (hm : m < n) (hk : k < (cells m).key) :
    keys_below cells k n ≤ m := by
  have hsub : ((Finset.range n).filter fun j => (cells j).key < k) ⊆ Finset.range m := by
    intro j hj
    simp only [Finset.mem_filter, Finset.mem_range] at hj ⊢
    rcases hj with ⟨hj, hjk⟩
    by_contra hge
    have hmj : m ≤ j := by omega
    rcases Nat.eq_or_lt_of_le hmj with h | h
    · subst h
      omega
    · have := hmono m j h hj
      omega
  calc ((Finset.range n).filter fun j => (cells j).key < k).card
      ≤ (Finset.range m).card := Finset.card_le_card hsub
    _ = m := Finset.card_range m

theorem le_keys_below_of_lt (cells : Nat → Cell) (k n : Nat)
    (hmono : ∀ i j, i < j → j < n → (cells i).key < (cells j).key)
    (m : Nat) (hm : m < n) (hk : (cells m).key < k) :
    m + 1 ≤ keys_below cells k n := by
  have hsub : Finset.range (m + 1) ⊆ (Finset.range n).filter fun j => (cells j).key < k := by
    intro j hj
    simp only [Finset.mem_filter, Finset.mem_range] at hj ⊢
    refine ⟨by omega, ?_⟩
    rcases Nat.eq_or_lt_of_le (by omega : j ≤ m) with h | h
    · subst h
      omega
    · have := hmono j m h hm
      omega
  calc m + 1 = (Finset.range (m + 1)).card := (Finset.card_range _).symm
    _ ≤ _ := Finset.card_le_card hsub

theorem leaf_node_find_loop_go_eq (cells : Nat → Cell) (k n : Nat)
    (hmono : ∀ i j, i < j → j < n → (cells i).key < (cells j).key) :
    ∀ fuel mn opm, opm - mn ≤ fuel → mn ≤ keys_below cells k n →
      keys_below cells k n ≤ opm → opm ≤ n →
      leaf_node_find_loop_go cells k fuel mn opm = keys_below cells k n := by
  intro fuel
  induction fuel with
  | zero =>
    intro mn opm h1 h2 h3 h4
    simp only [leaf_node_find_loop_go]
    omega
  | succ fuel ih =>
    intro mn opm h1 h2 h3 h4
    simp only [leaf_node_find_loop_go]
    by_cases hlt : mn < opm
    · rw [if_pos hlt]
      by_cases he : k = (cells ((mn + opm) / 2)).key
      · rw [if_pos he]
        exact (keys_below_eq_of_key_eq cells k n hmono _ (by omega) he.symm).symm
      · rw [if_neg he]
        by_cases hl : k < (cells ((mn + opm) / 2)).key
        · rw [if_pos hl]
          exact ih mn ((mn + opm) / 2) (by omega) h2
            (keys_below_le_of_lt cells k n hmono _ (by omega) hl) (by omega)
        · rw [if_neg hl]
          have hgt : (cells ((mn + opm) / 2)).key < k := by omega
          exact ih ((mn + opm) / 2 + 1) opm (by omega)
            (le_keys_below_of_lt cells k n hmono _ (by omega) hgt) h3 h4
    · rw [if_neg hlt]
      omega

/-- Adjacent strict ascent extends to arbitrary pairs of meaningful
cells. -/
theorem leaf_sorted_lt (node : LeafNode) (hs : leaf_sorted node) :
    ∀ i j, i < j → j < node.numCells → (node.cells i).key < (node.cells j).key := by
  intro i j
  induction j with
  | zero => omega
  | succ j ihj =>
    intro hij hj
    rcases Nat.eq_or_lt_of_le (by omega : i ≤ j) with h | h
    · subst h
      exact hs i (by omega)
    · exact lt_trans (ihj h (by omega)) (hs j (by omega))

theorem leaf_node_find_eq_keys_below (node : LeafNode) (k : Nat)
    (hs : leaf_sorted node) :
    leaf_node_find node k = keys_below node.cells k node.numCells :=
  leaf_node_find_loop_go_eq node.cells k node.numCells (leaf_sorted_lt node hs)
    node.numCells 0 node.numCells (by omega) (by omega)
    (keys_below_le node.cells k node.numCells) (le_refl _)

/-- When the key is nowhere in the leaf, the cells below the found
position are exactly those with a smaller key. -/
theorem keys_below_pivot (cells : Nat → Cell) (k n : Nat)
    (hmono : ∀ i j, i < j → j < n → (cells i).key < (cells j).key)
    (habs : ∀ m, m < n → (cells m).key ≠ k) :
    (∀ j, j < keys_below cells k n → (cells j).key < k) ∧
    (∀ j, keys_below cells k n ≤ j → j < n → k < (cells j).key) := by
  constructor
  · intro j hj
    have hjn : j < n := by
      have := keys_below_le cells k n
      omega
    by_contra hge
    have : k < (cells j).key := by
      have := habs j hjn
      omega
    have := keys_below_le_of_lt cells k n hmono j hjn this
    omega
  · intro j hj hjn
    by_contra hge
    have hlt : (cells j).key < k := by
      have := habs j hjn
      omega
    have := le_keys_below_of_lt cells k n hmono j hjn hlt
    omega

/-- Pointwise description of the shift loop: all cells in
`(cell_num, i]` have moved one slot right, the rest are untouched. -/
theorem shift_cells_right_apply :
    ∀ (i : Nat) (cells : Nat → Cell) (cell_num j : Nat),
      shift_cells_right cells cell_num i j =
        if cell_num < j ∧ j ≤ i then cells (j - 1) else cells j := by
  intro i
  induction i with
  | zero =>
    intro cells cell_num j
    simp only [shift_cells_right]
    rw [if_neg (by omega)]
  | succ i ih =>
    intro cells cell_num j
    simp only [shift_cells_right]
    by_cases h : cell_num < i + 1
    · rw [if_pos h, ih]
      by_cases hj : cell_num < j ∧ j ≤ i
      · rw [if_pos hj, if_pos ⟨hj.1, by omega⟩,
          Function.update_noteq (by omega : j - 1 ≠ i + 1)]
      · rw [if_neg hj]
        by_cases hji : j = i + 1
        · subst hji
          rw [Function.update_same, if_pos ⟨h, le_refl _⟩, Nat.add_sub_cancel]
        · rw [Function.update_noteq hji, if_neg (by omega)]
    · rw [if_neg h, if_neg (by omega)]

theorem leaf_node_insert_numCells (node : LeafNode) (cell_num key : Nat)
    (value : Row) :
    (leaf_node_insert node cell_num key value).numCells = node.numCells + 1 :=
  rfl

/-- Pointwise description of `leaf_node_insert` (non-full case, insert
position within the meaningful range): the new cell sits at `cell_num`,
the cells from `cell_num` on have moved one slot right. -/
theorem leaf_node_insert_cells (node : LeafNode) (cell_num key : Nat)
    (value : Row) (hc : cell_num ≤ node.numCells) (j : Nat) :
    (leaf_node_insert node cell_num key value).cells j =
      if j = cell_num then ⟨key, serialize_row value⟩
      else if cell_num < j ∧ j ≤ node.numCells then node.cells (j - 1)
      else node.cells j := by
  show Function.update _ cell_num _ j = _
  rw [Function.update_apply]
  by_cases hj : j = cell_num
  · rw [if_pos hj, if_pos hj]
  · rw [if_neg hj, if_neg hj]
    by_cases hroom : cell_num < node.numCells
    · rw [if_pos hroom, shift_cells_right_apply]
    · rw [if_neg hroom, if_neg (by omega)]

/-! ## Claim theorems -/

/-- C5: for a leaf whose keys are strictly ascending, `leaf_node_find`
returns the index of the search key when it is present, and otherwise
the unique insertion position: the index below which every key is
smaller than the search key and at or beyond which every key is larger
(equal to `num_cells` when the key exceeds all stored keys). -/
theorem c5_leaf_node_find_correct (node : LeafNode) (key : Nat)
    (hs : leaf_sorted node) :
    leaf_node_find node key ≤ node.numCells ∧
    (∀ m, m < node.numCells → (node.cells m).key = key →
      leaf_node_find node key = m) ∧
    ((∀ m, m < node.numCells → (node.cells m).key ≠ key) →
      ∀ j, j < node.numCells →
        (j < leaf_node_find node key ↔ (node.cells j).key < key)) := by
  have hmono := leaf_sorted_lt node hs
  have hfind := leaf_node_find_eq_keys_below node key hs
  refine ⟨?_, ?_, ?_⟩
  · rw [hfind]
    exact keys_below_le _ _ _
  · intro m hm hkey
    rw [hfind]
    exact keys_below_eq_of_key_eq _ _ _ hmono m hm hkey
  · intro habs j hj
    have hpiv := keys_below_pivot node.cells key node.numCells hmono habs
    rw [hfind]
    constructor
    · exact fun h => hpiv.1 j h
    · intro h
      by_contra hge
      have := hpiv.2 j (by omega) hj
      omega

/-- Witness for C5 at the leaf with keys 2, 4, 6 and search key 5. -/
theorem c5_leaf_node_find_correct_witness :
    leaf_sorted find_test_leaf ∧
    (leaf_node_find find_test_leaf 5 ≤ find_test_leaf.numCells ∧
      (∀ m, m < find_test_leaf.numCells → (find_test_leaf.cells m).key = 5 →
        leaf_node_find find_test_leaf 5 = m) ∧
      ((∀ m, m < find_test_leaf.numCells → (find_test_leaf.cells m).key ≠ 5) →
        ∀ j, j < find_test_leaf.numCells →
          (j < leaf_node_find find_test_leaf 5 ↔ (find_test_leaf.cells j).key < 5))) :=
  ⟨by decide, c5_leaf_node_find_correct find_test_leaf 5 (by decide)⟩

/-- C6: on a strictly ascending, non-full leaf, inserting a key that is
not already present at the position returned by `leaf_node_find`
increments `num_cells` by one and keeps the keys strictly ascending
(invariant P1 is preserved by insertion). -/
theorem c6_insert_preserves_order (node : LeafNode) (key : Nat) (value : Row)
    (hs : leaf_sorted node) (hroom : node.numCells < LEAF_NODE_MAX_CELLS)
    (habs : ∀ m, m < node.numCells → (node.cells m).key ≠ key) :
    (leaf_node_insert node (leaf_node_find node key) key value).numCells =
      node.numCells + 1 ∧
    leaf_sorted (leaf_node_insert node (leaf_node_find node key) key value) := by
  have hmono := leaf_sorted_lt node hs
  have hfind := leaf_node_find_eq_keys_below node key hs
  have hple : leaf_node_find node key ≤ node.numCells := by
    rw [hfind]
    exact keys_below_le _ _ _
  have hpiv := keys_below_pivot node.cells key node.numCells hmono habs
  have hlo : ∀ j, j < leaf_node_find node key → (node.cells j).key < key := by
    intro j hj
    rw [hfind] at hj
    exact hpiv.1 j hj
  have hhi : ∀ j, leaf_node_find node key ≤ j → j < node.numCells →
      key < (node.cells j).key := by
    intro j hj hjn
    rw [hfind] at hj
    exact hpiv.2 j hj hjn
  refine ⟨rfl, ?_⟩
  intro i hi
  have hn1 : (leaf_node_insert node (leaf_node_find node key) key value).numCells =
      node.numCells + 1 := rfl
  rw [hn1] at hi
  have hi' : i < node.numCells := by omega
  rw [leaf_node_insert_cells node (leaf_node_find node key) key value hple i,
    leaf_node_insert_cells node (leaf_node_find node key) key value hple (i + 1)]
  by_cases h1 : i + 1 < leaf_node_find node key
  · rw [if_neg (by omega : ¬i = leaf_node_find node key),
      if_neg (by omega : ¬(leaf_node_find node key < i ∧ i ≤ node.numCells)),
      if_neg (by omega : ¬i + 1 = leaf_node_find node key),
      if_neg (by omega : ¬(leaf_node_find node key < i + 1 ∧ i + 1 ≤ node.numCells))]
    exact hs i (by omega)
  · by_cases h2 : i + 1 = leaf_node_find node key
    · rw [if_neg (by omega : ¬i = leaf_node_find node key),
        if_neg (by omega : ¬(leaf_node_find node key < i ∧ i ≤ node.numCells)),
        if_pos h2]
      exact hlo i (by omega)
    · by_cases h3 : i = leaf_node_find node key
      · rw [if_pos h3,
          if_neg (by omega : ¬i + 1 = leaf_node_find node key),
          if_pos (⟨by omega, by omega⟩ :
            leaf_node_find node key < i + 1 ∧ i + 1 ≤ node.numCells)]
        show key < (node.cells (i + 1 - 1)).key
        rw [show i + 1 - 1 = i from rfl, h3]
        exact hhi (leaf_node_find node key) (le_refl _) (by omega)
      · rw [if_neg h3,
          if_pos (⟨by omega, by omega⟩ :
            leaf_node_find node key < i ∧ i ≤ node.numCells),
          if_neg (by omega : ¬i + 1 = leaf_node_find node key),
          if_pos (⟨by omega, by omega⟩ :
            leaf_node_find node key < i + 1 ∧ i + 1 ≤ node.numCells)]
        rw [show i + 1 - 1 = i from rfl]
        have := hs (i - 1) (by omega)
        rwa [show i - 1 + 1 = i by omega] at this

/-- Witness for C6: insert key 2 into the leaf with keys 1, 3. -/
theorem c6_insert_preserves_order_witness :
    leaf_sorted insert_test_leaf ∧
    insert_test_leaf.numCells < LEAF_NODE_MAX_CELLS ∧
    (∀ m, m < insert_test_leaf.numCells → (insert_test_leaf.cells m).key ≠ 2) ∧
    ((leaf_node_insert insert_test_leaf (leaf_node_find insert_test_leaf 2) 2
        (test_row 2)).numCells = insert_test_leaf.numCells + 1 ∧
      leaf_sorted (leaf_node_insert insert_test_leaf
        (leaf_node_find insert_test_leaf 2) 2 (test_row 2))) :=
  ⟨by decide, by decide, by decide,
    c6_insert_preserves_order insert_test_leaf 2 (test_row 2)
      (by decide) (by decide) (by decide)⟩

/-- C7: inserting a row whose id already occurs in the (strictly
ascending, non-full) root leaf makes `execute_statement` return
`EXECUTE_DUPLICATE_KEY` with the leaf completely unchanged. -/
theorem c7_duplicate_key_rejected (node : LeafNode) (row : Row)
    (hs : leaf_sorted node) (hroom : node.numCells < LEAF_NODE_MAX_CELLS)
    (m : Nat) (hm : m < node.numCells) (hkey : (node.cells m).key = row.id) :
    execute_insert node row = (.EXECUTE_DUPLICATE_KEY, node) := by
  have hmono := leaf_sorted_lt node hs
  have hfind : leaf_node_find node row.id = m := by
    rw [leaf_node_find_eq_keys_below node row.id hs]
    exact keys_below_eq_of_key_eq _ _ _ hmono m hm hkey
  simp only [execute_insert]
  rw [if_neg (by omega : ¬LEAF_NODE_MAX_CELLS ≤ node.numCells), hfind,
    if_pos ⟨hm, hkey⟩]

/-- Witness for C7: re-inserting key 3 into the leaf with keys 1, 3, 5. -/
theorem c7_duplicate_key_rejected_witness :
    leaf_sorted dup_test_leaf ∧
    dup_test_leaf.numCells < LEAF_NODE_MAX_CELLS ∧
    1 < dup_test_leaf.numCells ∧
    (dup_test_leaf.cells 1).key = (test_row 3).id ∧
    execute_insert dup_test_leaf (test_row 3) =
      (.EXECUTE_DUPLICATE_KEY, dup_test_leaf) :=
  ⟨by decide, by decide, by decide, by decide,
    c7_duplicate_key_rejected dup_test_leaf (test_row 3)
      (by decide) (by decide) 1 (by decide) (by decide)⟩

/-- C9: when the root leaf already holds `LEAF_NODE_MAX_CELLS` cells,
the insert arm of `execute_statement` returns `EXECUTE_TABLE_FULL`
immediately — before the duplicate check or any write — and the table
state is returned unchanged, for every row (duplicate or not). -/
theorem c9_table_full_atomic (node : LeafNode) (row : Row)
    (hfull : LEAF_NODE_MAX_CELLS ≤ node.numCells) :
    execute_insert node row = (.EXECUTE_TABLE_FULL, node) := by
  simp only [execute_insert]
  rw [if_pos hfull]

/-- Witness for C9 at the full leaf with keys 1..13 and a row whose key
13 is already present (the duplicate is never even checked). -/
theorem c9_table_full_atomic_witness :
    LEAF_NODE_MAX_CELLS ≤ full_root_leaf.numCells ∧
    execute_insert full_root_leaf (test_row 13) =
      (.EXECUTE_TABLE_FULL, full_root_leaf) :=
  ⟨by decide, c9_table_full_atomic full_root_leaf (test_row 13) (by decide)⟩

/-! ## Helper lemmas for the row codec -/

theorem strncpy_bytes_eq (s : List Nat) (n : Nat) (h : s.length ≤ n) :
    strncpy_bytes s n = s ++ List.replicate (n - s.length) 0 := by
  rw [strncpy_bytes, List.take_of_length_le h]

theorem strncpy_bytes_length (s : List Nat) (n : Nat) (h : s.length ≤ n) :
    (strncpy_bytes s n).length = n := by
  rw [strncpy_bytes]
  simp only [List.length_append, List.length_take, List.length_replicate]
  omega

theorem takeWhile_append_zero (s t : List Nat) (h : ∀ b ∈ s, b ≠ 0) :
    ((s ++ 0 :: t).takeWhile fun b => b != 0) = s := by
  induction s with
  | nil => simp [List.takeWhile_cons]
  | cons a s ih =>
    have ha : a ≠ 0 := h a (List.mem_cons_self a s)
    have hs : ∀ b ∈ s, b ≠ 0 := fun b hb => h b (List.mem_cons_of_mem a hb)
    simp [List.takeWhile_cons, ha, ih hs]

theorem u32_roundtrip (v : Nat) (h : v < 2 ^ 32) :
    u32_from_le_bytes (u32_le_bytes v) = v := by
  simp only [u32_le_bytes, u32_from_le_bytes]
  omega

/-! ## Remaining claim theorems -/

/-- C8: for every row whose id fits a `uint32_t` and whose username and
email are zero-free strings of at most 32 and 255 bytes, the 293-byte
encoding produced by `serialize_row` round-trips exactly through
`deserialize_row`. -/
theorem c8_row_roundtrip (r : Row) (hid : r.id < 2 ^ 32)
    (hu : r.username.length ≤ COLUMN_USERNAME_SIZE)
    (hu0 : ∀ b ∈ r.username, b ≠ 0)
    (he : r.email.length ≤ COLUMN_EMAIL_SIZE)
    (he0 : ∀ b ∈ r.email, b ≠ 0) :
    deserialize_row (serialize_row r) = r ∧
    (serialize_row r).length = ROW_SIZE := by
  obtain ⟨id, u, e⟩ := r
  simp only [ID_SIZE, USERNAME_SIZE, EMAIL_SIZE, COLUMN_USERNAME_SIZE,
    COLUMN_EMAIL_SIZE, ROW_SIZE] at hu he ⊢
  dsimp only at hid hu hu0 he he0
  have h33 : (strncpy_bytes u (32 + 1)).length = 32 + 1 :=
    strncpy_bytes_length u (32 + 1) (by omega)
  have h256 : (strncpy_bytes e (255 + 1)).length = 255 + 1 :=
    strncpy_bytes_length e (255 + 1) (by omega)
  have h4 : (4 : Nat) = (u32_le_bytes id).length := rfl
  constructor
  · simp only [serialize_row, deserialize_row, ID_SIZE, USERNAME_SIZE,
      EMAIL_SIZE, COLUMN_USERNAME_SIZE, COLUMN_EMAIL_SIZE]
    rw [List.append_assoc, Row.mk.injEq]
    refine ⟨?_, ?_, ?_⟩
    · rw [h4, List.take_left]
      exact u32_roundtrip id hid
    · rw [h4, List.drop_left, List.take_append_eq_append_take,
        List.take_of_length_le (le_of_eq h33), h33]
      simp only [Nat.sub_self, List.take_zero, List.append_nil]
      rw [strncpy_bytes_eq u (32 + 1) (by omega),
        show 32 + 1 - u.length = (32 - u.length) + 1 by omega,
        List.replicate_succ]
      exact takeWhile_append_zero u _ hu0
    · rw [h4, List.drop_left, List.drop_append_eq_append_drop,
        List.drop_eq_nil_of_le (le_of_eq h33), h33]
      simp only [Nat.sub_self, List.drop_zero, List.nil_append]
      rw [List.take_of_length_le (le_of_eq h256),
        strncpy_bytes_eq e (255 + 1) (by omega),
        show 255 + 1 - e.length = (255 - e.length) + 1 by omega,
        List.replicate_succ]
      exact takeWhile_append_zero e _ he0
  · simp only [serialize_row, USERNAME_SIZE, EMAIL_SIZE, COLUMN_USERNAME_SIZE,
      COLUMN_EMAIL_SIZE, List.length_append, h33, h256, u32_le_bytes,
      List.length_cons, List.length_nil]

/-- Witness for C8 at the row `(7, "ab", "c")`. -/
theorem c8_row_roundtrip_witness :
    (7 : Nat) < 2 ^ 32 ∧
    ([97, 98] : List Nat).length ≤ COLUMN_USERNAME_SIZE ∧
    (∀ b ∈ ([97, 98] : List Nat), b ≠ 0) ∧
    ([99] : List Nat).length ≤ COLUMN_EMAIL_SIZE ∧
    (∀ b ∈ ([99] : List Nat), b ≠ 0) ∧
    (deserialize_row (serialize_row ⟨7, [97, 98], [99]⟩) =
        (⟨7, [97, 98], [99]⟩ : Row) ∧
      (serialize_row (⟨7, [97, 98], [99]⟩ : Row)).length = ROW_SIZE) :=
  ⟨by decide, by decide, by decide, by decide, by decide,
    c8_row_roundtrip ⟨7, [97, 98], [99]⟩ (by decide) (by decide) (by decide)
      (by decide) (by decide)⟩

/-- C10: the insert arm of `prepare_statement` rejects an id only when
it is strictly negative; an id of 0 passes the check and yields
`PREPARE_SUCCESS` with the row storing key 0 like any other. -/
theorem c10_prepare_insert_id (id : Int) (username email : List Nat)
    (hu : username.length ≤ COLUMN_USERNAME_SIZE)
    (he : email.length ≤ COLUMN_EMAIL_SIZE) :
    (id < 0 → prepare_insert id username email = (.PREPARE_NEGATIVE_ID, none)) ∧
    prepare_insert 0 username email =
      (.PREPARE_SUCCESS, some ⟨0, username, email⟩) := by
  constructor
  · intro h
    simp only [prepare_insert]
    rw [if_pos h]
  · simp only [prepare_insert]
    rw [if_neg (by omega : ¬(0 : Int) < 0),
      if_neg (by omega : ¬COLUMN_USERNAME_SIZE < username.length),
      if_neg (by omega : ¬COLUMN_EMAIL_SIZE < email.length)]
    rfl

/-- Witness for C10 with id −5 (rejected) and id 0 (accepted). -/
theorem c10_prepare_insert_id_witness :
    ([97] : List Nat).length ≤ COLUMN_USERNAME_SIZE ∧
    ([101] : List Nat).length ≤ COLUMN_EMAIL_SIZE ∧
    (((-5 : Int) < 0 →
        prepare_insert (-5) [97] [101] = (.PREPARE_NEGATIVE_ID, none)) ∧
      prepare_insert 0 [97] [101] =
        (.PREPARE_SUCCESS, some ⟨0, [97], [101]⟩)) :=
  ⟨by decide, by decide,
    c10_prepare_insert_id (-5) [97] [101] (by decide) (by decide)⟩

/-- C3 counterexample: the code's right split count is
`LEAF_NODE_MAX_CELLS / 2` = 6, not `ceil(LEAF_NODE_MAX_CELLS / 2)` =
`(13 + 1) / 2` = 7 as the claim states. -/
theorem c3_right_split_count_not_ceil :
    LEAF_NODE_RIGHT_SPLIT_COUNT ≠ (LEAF_NODE_MAX_CELLS + 1) / 2 := by
  decide

/-- C3 amended: `LEAF_NODE_MAX_CELLS = floor((4096 − 10)/297) = 13`,
`LEAF_NODE_RIGHT_SPLIT_COUNT = floor(MAX/2) = 6` and
`LEAF_NODE_LEFT_SPLIT_COUNT = MAX − floor(MAX/2) = 7` (so only the
`ceil` in the claim is wrong; the concrete numbers 13, 6, 7 are
right). -/
theorem c3_split_constants :
    LEAF_NODE_MAX_CELLS = (PAGE_SIZE - LEAF_NODE_HEADER_SIZE) / LEAF_NODE_CELL_SIZE ∧
    LEAF_NODE_MAX_CELLS = 13 ∧
    LEAF_NODE_RIGHT_SPLIT_COUNT = LEAF_NODE_MAX_CELLS / 2 ∧
    LEAF_NODE_RIGHT_SPLIT_COUNT = 6 ∧
    LEAF_NODE_LEFT_SPLIT_COUNT = LEAF_NODE_MAX_CELLS - LEAF_NODE_MAX_CELLS / 2 ∧
    LEAF_NODE_LEFT_SPLIT_COUNT = 7 := by
  decide

/-- C1: evaluating the code on the claim's own scenario.  On a fresh
database the thirteen inserts of keys 1..13 all succeed and fill the
root leaf; the fourteenth insert is then rejected with
`EXECUTE_TABLE_FULL` and the table is left unchanged —
`execute_statement` returns before `leaf_node_insert`, so the
split-and-insert path is never reached and the claimed successful
14th insert does not happen. -/
theorem c1_fourteenth_insert_rejected :
    (run_inserts empty_root_leaf (List.range' 1 13)).1 =
      List.replicate 13 .EXECUTE_SUCCESS ∧
    db_after_13.numCells = LEAF_NODE_MAX_CELLS ∧
    execute_insert db_after_13 (test_row 14) =
      (.EXECUTE_TABLE_FULL, db_after_13) := by
  refine ⟨by decide, by decide, ?_⟩
  simp only [execute_insert]
  rw [if_pos (by decide : LEAF_NODE_MAX_CELLS ≤ db_after_13.numCells)]

/-- C2: evaluating `leaf_node_split_and_insert` on a full root leaf
holding keys 1..13 with the new key 14 at its binary-search position
13.  The two resulting leaves do hold `LEAF_NODE_LEFT_SPLIT_COUNT` = 7
and `LEAF_NODE_RIGHT_SPLIT_COUNT` = 6 cells, but their keys are
1..7 and 8..13: the largest of the fourteen keys (here the new key 14)
is written to cell index 6 of the new node, beyond its announced
`num_cells` = 6, and is lost — the concatenation is NOT the original
thirteen keys plus the new key. -/
theorem c2_split_loses_max_key :
    leaf_node_find full_root_leaf 14 = LEAF_NODE_MAX_CELLS ∧
    split_result_14.1.numCells = LEAF_NODE_LEFT_SPLIT_COUNT ∧
    split_result_14.2.numCells = LEAF_NODE_RIGHT_SPLIT_COUNT ∧
    leaf_keys split_result_14.1 = [1, 2, 3, 4, 5, 6, 7] ∧
    leaf_keys split_result_14.2 = [8, 9, 10, 11, 12, 13] ∧
    leaf_keys split_result_14.1 ++ leaf_keys split_result_14.2 ≠
      leaf_keys full_root_leaf ++ [14] := by
  refine ⟨by decide, by decide, by decide, by decide, by decide, by decide⟩

/-- C4 counterexample: fetch page 0 of an empty (zero-length) file —
a page at the on-disk page count — with an allocator whose returned
buffer is filled with the byte 1.  `get_page` mallocs without zeroing,
so the returned buffer's byte 0 is 1, not 0 as the claim requires. -/
theorem c4_fresh_page_not_zeroed :
    ((get_page (fun _ => 0) (fun _ => 1) empty_pager 0).getD
        ((fun _ => 0), empty_pager)).1 0 = 1 ∧ (1 : Nat) ≠ 0 :=
  ⟨rfl, by decide⟩

/-- C4 amended: on a cache miss for a page number at or beyond the
on-disk page count, `get_page` performs no read and returns the freshly
allocated buffer exactly as the allocator produced it — unspecified
contents, not necessarily zero.  (Bytes of pages inside the on-disk
count are read from the file; the tail beyond a short read likewise
keeps the allocator's bytes.) -/
theorem c4_get_page_beyond_eof_returns_malloc (file mallocBytes : Nat → Nat)
    (pager : Pager) (page_num : Nat)
    (h1 : page_num < TABLE_MAX_PAGES)
    (h2 : pager.pages page_num = none)
    (h3 : disk_pages pager.fileLength ≤ page_num) :
    (get_page file mallocBytes pager page_num).map Prod.fst =
      some mallocBytes := by
  simp only [get_page, h2]
  rw [if_neg (by omega : ¬TABLE_MAX_PAGES ≤ page_num),
    if_neg (by omega : ¬page_num < disk_pages pager.fileLength)]
  rfl

/-- Witness for C4 (amended) at page 0 of an empty file. -/
theorem c4_get_page_beyond_eof_returns_malloc_witness :
    (0 : Nat) < TABLE_MAX_PAGES ∧
    empty_pager.pages 0 = none ∧
    disk_pages empty_pager.fileLength ≤ 0 ∧
    (get_page (fun _ => 0) (fun _ => 2) empty_pager 0).map Prod.fst =
      some (fun _ => 2) :=
  ⟨by decide, rfl, by decide,
    c4_get_page_beyond_eof_returns_malloc (fun _ => 0) (fun _ => 2)
      empty_pager 0 (by decide) rfl (by decide)⟩
